import Mathlib

/-!
Shallow embedding of the two client-side page scripts of this repository:
`js/auto-index.js` (post fetching, category aggregation, markup rendering and
page composition) and `js/auto-toc.js` (table-of-contents generation).

Modelling conventions.
JavaScript strings are modelled by Lean strings; `String.prototype.trim` by
`String.trim` and the default string comparison by the code-point
lexicographic order (both agree with JavaScript on the ASCII data handled by
these scripts).  DOM nodes built by the scripts are modelled by the inductive
`Node`.  The network is modelled by an environment mapping each requested URL
to the outcome of its fetch, together with a settlement schedule listing the
input positions in the order in which the concurrent fetches complete; this
makes the concurrency of `Promise.all` explicit as data.
-/

/-- A DOM node as constructed by the scripts: element tag, the `className`
property, the attributes set on the element, and its children, or a text
node. -/
inductive Node where
  | elem (tag : String) (className : String) (attrs : List (String × String)) (children : List Node)
  | text (s : String)

/-- The global `SITE_CONFIG` object consumed by `auto-index.js` (supplied by
the page before the script runs). -/
structure SiteConfig where
  postsDir : String
  postFiles : List String
  title : String
  subtitle : String
  description : String
  githubUrl : String
  copyrightYear : String
deriving DecidableEq

/-- The facts `buildPostMap` reads out of one fetched article document after
`DOMParser.parseFromString`: the `content` of the first
`meta[name="category"]` element (`none` when no such element exists) and the
`textContent` of every `p` element in document order. -/
structure PostDoc where
  metaCategory : Option String
  paragraphs : List String
deriving DecidableEq

/-- Outcome of one `fetch`: the promise either rejects (network error) or
resolves with an HTTP status and a response body. -/
inductive FetchOutcome where
  | rejected
  | resolved (status : Nat) (body : PostDoc)
deriving DecidableEq

/-- The `Response.ok` getter: status in the inclusive range 200-299. -/
def responseOk (status : Nat) : Bool :=
  decide (200 ≤ status ∧ status < 300)

/-- JavaScript `String.prototype.trim`: drop the leading and the trailing
run of whitespace. -/
def jsTrim (s : String) : String :=
  ⟨((s.data.dropWhile Char.isWhitespace).reverse.dropWhile Char.isWhitespace).reverse⟩

/-- `filename.replace(/\.html$/, '')`: drop a trailing `.html` if present. -/
def stripHtmlExt (fn : String) : String :=
  if fn.data.drop (fn.data.length - 5) = ".html".data then ⟨fn.data.take (fn.data.length - 5)⟩
  else fn

/-- The record `buildPostMap` produces for one successfully fetched article. -/
structure Article where
  filename : String
  category : String
  slug : String
  content : String
deriving DecidableEq

/-- Category extraction in `buildPostMap` (auto-index.js lines 140-147):
`if (metaCategory && metaCategory.content.trim().length > 0)` use the trimmed
tag value, `else` use the literal default `'others'`. -/
def extractCategory (doc : PostDoc) : String :=
  match doc.metaCategory with
  | some c => if (jsTrim c).length > 0 then jsTrim c else "others"
  | none => "others"

/-- The paragraph scan of `buildPostMap` (auto-index.js lines 150-158): walk
the paragraphs in document order and keep the first whose trimmed text is
non-empty. -/
def firstNonemptyParagraph : List String → Option String
  | [] => none
  | p :: ps =>
      let t := jsTrim p
      if t.length > 0 then some t else firstNonemptyParagraph ps

/-- The per-article record construction of `buildPostMap` on a successfully
parsed document (auto-index.js lines 140-167). -/
def parseArticle (filename : String) (doc : PostDoc) : Article :=
  let category := extractCategory doc
  let content :=
    match firstNonemptyParagraph doc.paragraphs with
    | some t => t
    | none => stripHtmlExt filename
  let slug := stripHtmlExt filename
  ⟨filename, category, slug, content⟩

/-- One iteration of the `htmlFiles.map(async (filename) => ...)` callback in
`buildPostMap`: a rejected fetch rejects the task (`Except.error`), a non-ok
status yields `null` (here `Option.none`, after the `console.warn`), an ok
status yields the parsed article record. -/
def fetchItem (cfg : SiteConfig) (env : String → FetchOutcome) (filename : String) :
    Except Unit (Option Article) :=
  match env (cfg.postsDir ++ filename) with
  | .rejected => .error ()
  | .resolved status body =>
      if responseOk status then .ok (some (parseArticle filename body))
      else .ok none

/-- Whether a per-file task rejected. -/
def isRejected : Except Unit (Option Article) → Bool
  | .error _ => true
  | .ok _ => false

/-- The value a settled (non-rejected) task delivered; `none` for a rejected
task (never consulted on that branch). -/
def settledValue : Except Unit (Option Article) → Option Article
  | .ok r => r
  | .error _ => none

/-- The per-file tasks in the order they settle: `sched` lists the input
positions in settlement order, and each task's value is determined by the
file it fetches. -/
def settleResults (cfg : SiteConfig) (env : String → FetchOutcome) (sched : List Nat) :
    List (Nat × Except Unit (Option Article)) :=
  sched.map (fun i => (i, fetchItem cfg env (cfg.postFiles.getD i "")))

/-- `Promise.all` over the per-file tasks: it rejects as soon as any task
rejects, and otherwise resolves with an array holding each task's value at
that task's input position (positional assembly is what makes the result
independent of the settlement schedule). -/
def promiseAll (cfg : SiteConfig) (env : String → FetchOutcome) (sched : List Nat) :
    Except Unit (List (Option Article)) :=
  let settled := settleResults cfg env sched
  if settled.any (fun p => isRejected p.2) then .error ()
  else .ok ((List.range cfg.postFiles.length).map (fun i =>
    match settled.lookup i with
    | some r => settledValue r
    | none => none))

/-- The grouped mapping produced by `buildPostMap`: a JavaScript object used
as a dictionary, modelled as an association list in key-insertion order. -/
abbrev CategoryMap := List (String × List Article)

/-- One step of the grouping loop of `buildPostMap` (auto-index.js lines
174-180): create the bucket on first sight of a category, then push the
record at the end of its bucket. -/
def insertArticle (m : CategoryMap) (a : Article) : CategoryMap :=
  if m.any (fun kv => kv.1 == a.category) then
    m.map (fun kv => if kv.1 == a.category then (kv.1, kv.2 ++ [a]) else kv)
  else m ++ [(a.category, [a])]

/-- The `validArticles.forEach` grouping loop of `buildPostMap`. -/
def groupArticles (articles : List Article) : CategoryMap :=
  articles.foldl insertArticle []

/-- `buildPostMap` (auto-index.js lines 119-183): early return on an empty
file list, otherwise join all fetch tasks, drop the `null` entries and group
the surviving records by category. -/
def buildPostMap (cfg : SiteConfig) (env : String → FetchOutcome) (sched : List Nat) :
    Except Unit CategoryMap :=
  if cfg.postFiles.length = 0 then .ok []
  else
    match promiseAll cfg env sched with
    | .error e => .error e
    | .ok articles => .ok (groupArticles (articles.filterMap id))

/-- The distinct category keys in first-appearance order (the key set of the
object built by the grouping loop). -/
def categoryKeys (articles : List Article) : List String :=
  articles.foldl
    (fun ks a => if ks.any (fun k => k == a.category) then ks else ks ++ [a.category]) []

/-- The article records of the fetches that resolved with an ok status, in
input-list order. -/
def successArticles (cfg : SiteConfig) (env : String → FetchOutcome) : List Article :=
  cfg.postFiles.filterMap (fun fn => settledValue (fetchItem cfg env fn))

/-- The `console.warn` messages emitted by the per-file callbacks for non-ok
statuses (auto-index.js line 134), in input-list order. -/
def fetchWarnings (cfg : SiteConfig) (env : String → FetchOutcome) : List String :=
  cfg.postFiles.filterMap (fun fn =>
    match env (cfg.postsDir ++ fn) with
    | .rejected => none
    | .resolved status _ =>
        if responseOk status then none
        else some ("Failed to fetch " ++ fn ++ ": " ++ toString status))

/-- Modelled from the spec: the spec's description of the `CategoryMap` says
bucket insertion order is fetch-resolution (settlement) order.  This
definition groups the settled values in settlement order so that the
description can be compared with `buildPostMap`. -/
def settlementPostMap (cfg : SiteConfig) (env : String → FetchOutcome) (sched : List Nat) :
    Except Unit CategoryMap :=
  if cfg.postFiles.length = 0 then .ok []
  else
    let settled := settleResults cfg env sched
    if settled.any (fun p => isRejected p.2) then .error ()
    else .ok (groupArticles ((settled.map (fun p => settledValue p.2)).filterMap id))

/-- Schedule-free normal form of `buildPostMap`: reject if any fetch rejects,
otherwise group the ok articles in input order.  (Every run of `buildPostMap`
under a valid schedule equals this; proved below.) -/
def postMapInputOrder (cfg : SiteConfig) (env : String → FetchOutcome) :
    Except Unit CategoryMap :=
  if cfg.postFiles.any (fun fn => isRejected (fetchItem cfg env fn)) then .error ()
  else .ok (groupArticles (successArticles cfg env))

/-- Lexicographic comparison of character sequences by code point, the
comparison JavaScript's default string ordering performs. -/
def lexLe : List Char → List Char → Bool
  | [], _ => true
  | _ :: _, [] => false
  | a :: as, b :: bs =>
      if a < b then true
      else if b < a then false
      else lexLe as bs

/-- The default string ordering used by `Array.prototype.sort`. -/
def jsStrLe (a b : String) : Prop :=
  lexLe a.data b.data = true

instance : DecidableRel jsStrLe :=
  fun _ _ => instDecidableEqBool _ _

/-- `Object.keys(postMap).sort()`: sort the category keys by the default
string ordering. -/
def sortStrings (l : List String) : List String :=
  l.insertionSort jsStrLe

/-- One article link in the description cell (auto-index.js lines 33-35):
an `a` element whose target is `postsDir + filename` and whose visible label
is the slug. -/
def mkLink (postsDir : String) (a : Article) : Node :=
  Node.elem "a" "" [("href", postsDir ++ a.filename)] [Node.text a.slug]

/-- The term node for one category (auto-index.js lines 19-23). -/
def mkDt (category : String) : Node :=
  Node.elem "dt" "postDt" [] [Node.elem "strong" "" [] [Node.text category]]

/-- The children of the description node (auto-index.js lines 32-45): for
each article append its link, and after every article except the last append
the literal text separator. -/
def ddChildren (postsDir : String) (articles : List Article) : List Node :=
  (articles.enum.map (fun p =>
    if p.1 < articles.length - 1 then [mkLink postsDir p.2, Node.text "; "]
    else [mkLink postsDir p.2])).flatten

/-- The description node for one category (auto-index.js lines 26-45). -/
def mkDd (postsDir : String) (articles : List Article) : Node :=
  Node.elem "dd" "postDd" [] (ddChildren postsDir articles)

/-- `postMap[category]` lookup. -/
def lookupBucket (pm : CategoryMap) (k : String) : List Article :=
  (pm.lookup k).getD []

/-- `buildCategoryList` (auto-index.js lines 9-53): sort the category keys,
then emit a `dt`/`dd` pair per category inside a `dl`. -/
def buildCategoryList (postsDir : String) (pm : CategoryMap) : Node :=
  Node.elem "dl" "category-list" []
    ((sortStrings (pm.map Prod.fst)).flatMap
      (fun c => [mkDt c, mkDd postsDir (lookupBucket pm c)]))

/-- The children of an element node (empty for a text node). -/
def nodeChildren : Node → List Node
  | .elem _ _ _ cs => cs
  | .text _ => []

/-- Read the category label off a term node; `none` for every other node. -/
def dtLabel (n : Node) : Option String :=
  match n with
  | .elem t _ _ cs =>
      if t = "dt" then
        match cs with
        | [Node.elem _ _ _ [Node.text s]] => some s
        | _ => none
      else none
  | .text _ => none

/-- The category labels of the rendered list, in rendered order. -/
def categoryOrder (postsDir : String) (pm : CategoryMap) : List String :=
  (nodeChildren (buildCategoryList postsDir pm)).filterMap dtLabel

/-- Whether a node is the literal `'; '` separator text node. -/
def isSepNode : Node → Bool
  | .text s => s == "; "
  | .elem _ _ _ _ => false

/-- Whether a node is an article link. -/
def isLinkNode : Node → Bool
  | .elem t _ _ _ => t == "a"
  | .text _ => false

/-- `buildHeader` (auto-index.js lines 60-81). -/
def mkHeader (cfg : SiteConfig) : Node :=
  Node.elem "header" "" []
    [Node.elem "h1" "" [] [Node.text cfg.title],
     Node.elem "p" "" [] [Node.text cfg.subtitle],
     Node.elem "p" "" [] [Node.text cfg.description]]

/-- `buildFooter` (auto-index.js lines 88-112). -/
def mkFooter (cfg : SiteConfig) : Node :=
  Node.elem "footer" "" []
    [Node.text ("© " ++ cfg.copyrightYear ++ " " ++ cfg.title ++
        ". All content is available under the "),
     Node.elem "a" "" [("href", "https://creativecommons.org/licenses/by-sa/4.0/")]
       [Node.text "CC BY-SA 4.0"],
     Node.text ". ",
     Node.elem "a" "" [("href", cfg.githubUrl)] [Node.text "Source on GitHub"]]

/-- `createKnowledgeTable` (auto-index.js lines 192-217): one row, three
cells, the middle one holding the category list. -/
def createKnowledgeTable (cfg : SiteConfig) (pm : CategoryMap) : Node :=
  Node.elem "table" "knowledge-table" [("rules", "cols"), ("cellpadding", "10")]
    [Node.elem "tr" "" []
      [Node.elem "td" "shortcuts" [] [Node.text "shortcuts to do"],
       Node.elem "td" "posts" [] [buildCategoryList cfg.postsDir pm],
       Node.elem "td" "language" [] [Node.text "language to do"]]]

/-- A mutation `buildAutoIndex` applies to the main container: an
`innerHTML` assignment, an `appendChild`, or the assignment of the error
template (whose text interpolates the caught error's message). -/
inductive DomOp where
  | setInnerHTML (s : String)
  | appendChild (n : Node)
  | renderErrorMessage

/-- Observable behaviour of one `buildAutoIndex` run: the mutations applied
to the main container in order, the URLs fetched, and the console error and
warning messages. -/
structure ComposeResult where
  mainOps : List DomOp
  fetches : List String
  consoleErrors : List String
  consoleWarns : List String

/-- The URLs requested by `buildPostMap`: none on an empty file list, one per
file otherwise (all tasks are started before any settles). -/
def fetchesIssued (cfg : SiteConfig) : List String :=
  if cfg.postFiles.length = 0 then []
  else cfg.postFiles.map (fun fn => cfg.postsDir ++ fn)

/-- The warnings a `buildPostMap` run prints: the empty-directory warning on
an empty file list, otherwise one warning per non-ok fetch. -/
def composeWarnings (cfg : SiteConfig) (env : String → FetchOutcome) : List String :=
  if cfg.postFiles.length = 0 then ["No articles found in the posts/ directory."]
  else fetchWarnings cfg env

/-- `buildAutoIndex` (auto-index.js lines 224-250): bail out with a console
error when the main container is missing; otherwise show the loading
message, run the pipeline, and either compose header, table and footer or
render the error template. -/
def buildAutoIndex (cfg : SiteConfig) (env : String → FetchOutcome) (sched : List Nat)
    (mainPresent : Bool) : ComposeResult :=
  if mainPresent then
    let loading := DomOp.setInnerHTML "<p>Loading knowledge base...</p>"
    match buildPostMap cfg env sched with
    | .error _ =>
        { mainOps := [loading, DomOp.renderErrorMessage]
          fetches := fetchesIssued cfg
          consoleErrors := ["Error building auto-index:"]
          consoleWarns := composeWarnings cfg env }
    | .ok pm =>
        { mainOps := [loading, DomOp.setInnerHTML "",
            DomOp.appendChild (mkHeader cfg),
            DomOp.appendChild (createKnowledgeTable cfg pm),
            DomOp.appendChild (mkFooter cfg)]
          fetches := fetchesIssued cfg
          consoleErrors := []
          consoleWarns := composeWarnings cfg env }
  else
    { mainOps := []
      fetches := []
      consoleErrors := ["Main container not found in index.html"]
      consoleWarns := [] }

/-! Embedding of `js/auto-toc.js`.  The document is modelled from the point
of view of that script: the elements matched by `CONFIG.selectors` (the
selector is `'h1'`, so every matched heading has tag name `H1` and level 1),
the `id` attributes of the remaining elements, and the `#toc-container`
element's children (`none` when the container is absent).  The model
describes the document once loading has finished, which is when the deferred
`DOMContentLoaded` call of `generateTOC` runs. -/

/-- One heading matched by the TOC selector: its `id` attribute (the empty
string when absent, which is the falsy case of `if (!heading.id)`) and its
`textContent`. -/
structure THeading where
  id : String
  text : String
deriving DecidableEq

/-- The document state read and written by `generateTOC`. -/
structure TocDoc where
  readyLoading : Bool
  headings : List THeading
  otherIds : List String
  tocContainer : Option (List Node)
  tocAtBodyStart : Bool

/-- A character kept by `replace(/[^\w\s-]/g, '')`: word characters,
whitespace, or a dash. -/
def keepChar (c : Char) : Bool :=
  c.isAlphanum || c = '_' || c.isWhitespace || c = '-'

/-- A character matched by `[\s_]`. -/
def isSpaceOrUnderscore (c : Char) : Bool :=
  c.isWhitespace || c = '_'

/-- `replace(/[\s_]+/g, '-')`: every maximal run of whitespace/underscores
becomes a single dash.  The boolean tracks whether the previous character was
part of such a run. -/
def collapseRunsAux : Bool → List Char → List Char
  | _, [] => []
  | inRun, c :: cs =>
      if isSpaceOrUnderscore c then
        if inRun then collapseRunsAux true cs
        else '-' :: collapseRunsAux true cs
      else c :: collapseRunsAux false cs

/-- `replace(/^-+|-+$/g, '')`: strip the leading and the trailing run of
dashes. -/
def stripDashes (l : List Char) : List Char :=
  ((l.dropWhile (fun c => c = '-')).reverse.dropWhile (fun c => c = '-')).reverse

/-- `generateSlug` (auto-toc.js lines 26-34): trim, lower-case, drop special
characters, turn whitespace/underscore runs into dashes, strip edge
dashes. -/
def generateSlug (text : String) : String :=
  ⟨stripDashes (collapseRunsAux false (((jsTrim text).data.map Char.toLower).filter keepChar))⟩

/-- The `while` loop of `generateUniqueId`, with explicit fuel: try
`base-counter` for increasing counters until the id is unoccupied.  Fuel
`used.length + 1` always suffices because the candidates are pairwise
distinct while `used` is finite. -/
def findFreeIdAux (used : List String) (base : String) : Nat → Nat → String
  | 0, _ => base
  | fuel + 1, counter =>
      let id := base ++ "-" ++ toString counter
      if used.contains id then findFreeIdAux used base fuel (counter + 1)
      else id

/-- `generateUniqueId` (auto-toc.js lines 42-51) for a heading that has no id
yet: since the heading itself carries no id, `document.getElementById(id)`
finding any element means the candidate is occupied. -/
def generateUniqueId (used : List String) (base : String) : String :=
  if used.contains base then findFreeIdAux used base (used.length + 1) 1
  else base

/-- The id-assignment pass of the `headings.forEach` loop (auto-toc.js lines
160-170), threading the set of occupied ids: a heading with an id keeps it, a
heading without one gets a unique id derived from its slug (or from
`'section'` when the slug is empty), and that id becomes occupied for the
later headings. -/
def assignIds : List THeading → List String → List THeading
  | [], _ => []
  | h :: hs, used =>
      if h.id == "" then
        let base := generateSlug h.text
        let newId :=
          if base == "" then generateUniqueId used "section"
          else generateUniqueId used base
        ⟨newId, h.text⟩ :: assignIds hs (newId :: used)
      else h :: assignIds hs used

/-- The ids occupied before the forEach loop runs: the container id (present
or just created), every non-heading id, and every pre-existing heading
id. -/
def tocUsedIds (doc : TocDoc) : List String :=
  "toc-container" :: doc.otherIds ++ (doc.headings.map THeading.id).filter (fun i => !(i == ""))

/-- The TOC title element (auto-toc.js lines 151-154). -/
def tocTitleNode : Node :=
  Node.elem "h2" "toc-title" [] [Node.text "Table of Content"]

/-- One TOC entry (auto-toc.js lines 173-184).  The selector matches only
`h1` elements, so `parseInt(heading.tagName.charAt(1))` is always 1. -/
def tocEntry (h : THeading) : Node :=
  Node.elem "li" "toc-level-1" []
    [Node.elem "a" "" [("href", "#" ++ h.id)] [Node.text (jsTrim h.text)]]

/-- `generateTOC` (auto-toc.js lines 138-186): defer while the document is
still loading; return untouched when no heading matches; otherwise create or
clear the container, assign heading ids, and render the title and the entry
list into the container (a created container is inserted at the start of the
body). -/
def generateTOC (doc : TocDoc) : TocDoc :=
  if doc.readyLoading then doc
  else if doc.headings.length = 0 then doc
  else
    let hs := assignIds doc.headings (tocUsedIds doc)
    { doc with
      headings := hs
      tocContainer := some [tocTitleNode, Node.elem "ul" "" [] (hs.map tocEntry)]
      tocAtBodyStart := if doc.tocContainer.isNone then true else doc.tocAtBodyStart }

/-! Helper lemmas about the fetch/join layer. -/

theorem any_map_general {α β : Type} (f : α → β) (p : β → Bool) (l : List α) :
    (l.map f).any p = l.any (fun a => p (f a)) := by
  induction l with
  | nil => rfl
  | cons a t ih => simp [List.any_cons, ih]

theorem perm_any {α : Type} {l l' : List α} (p : α → Bool) (h : l.Perm l') :
    l.any p = l'.any p := by
  induction h with
  | nil => rfl
  | cons x _ ih => simp [List.any_cons, ih]
  | swap x y l => simp [List.any_cons, Bool.or_left_comm]
  | trans _ _ ih1 ih2 => exact ih1.trans ih2

theorem lookup_map_self {β : Type} (l : List Nat) (f : Nat → β) (i : Nat) :
    (l.map (fun j => (j, f j))).lookup i = if i ∈ l then some (f i) else none := by
  induction l with
  | nil => rfl
  | cons j t ih =>
      by_cases hij : i = j
      · subst hij
        simp [List.lookup_cons]
      · have hne : (i == j) = false := beq_false_of_ne hij
        simp [List.lookup_cons, hne, ih, hij]

theorem range_map_getD {α β : Type} (l : List α) (d : α) (f : α → β) :
    (List.range l.length).map (fun i => f (l.getD i d)) = l.map f := by
  induction l with
  | nil => rfl
  | cons a t ih =>
      rw [List.length_cons, List.range_succ_eq_map, List.map_cons, List.map_map, List.map_cons]
      simp only [Function.comp_def, Nat.succ_eq_add_one, List.getD_cons_succ,
        List.getD_cons_zero]
      exact congrArg (f a :: ·) ih

theorem isRejected_fetchItem_iff (cfg : SiteConfig) (env : String → FetchOutcome)
    (fn : String) :
    isRejected (fetchItem cfg env fn) = true ↔ env (cfg.postsDir ++ fn) = .rejected := by
  cases h : env (cfg.postsDir ++ fn) with
  | rejected => simp [fetchItem, h, isRejected]
  | resolved status body =>
      simp only [fetchItem, h]
      by_cases hok : responseOk status = true <;> simp [hok, isRejected]

theorem promiseAll_eq (cfg : SiteConfig) (env : String → FetchOutcome) (sched : List Nat)
    (hperm : sched.Perm (List.range cfg.postFiles.length)) :
    promiseAll cfg env sched =
      if cfg.postFiles.any (fun fn => isRejected (fetchItem cfg env fn)) then .error ()
      else .ok (cfg.postFiles.map (fun fn => settledValue (fetchItem cfg env fn))) := by
  have hany : (settleResults cfg env sched).any (fun p => isRejected p.2) =
      cfg.postFiles.any (fun fn => isRejected (fetchItem cfg env fn)) := by
    rw [settleResults, any_map_general, perm_any _ hperm,
      show (fun i => isRejected (fetchItem cfg env (cfg.postFiles.getD i ""))) =
        (fun i => isRejected (fetchItem cfg env ((cfg.postFiles.getD i "")))) from rfl]
    exact (any_map_general (fun i => cfg.postFiles.getD i "")
      (fun fn => isRejected (fetchItem cfg env fn)) (List.range cfg.postFiles.length)).symm.trans
      (by rw [show ((List.range cfg.postFiles.length).map (fun i => cfg.postFiles.getD i "")) =
          cfg.postFiles.map id from range_map_getD cfg.postFiles "" id, List.map_id])
  rw [promiseAll]
  simp only [hany]
  by_cases hrej : cfg.postFiles.any (fun fn => isRejected (fetchItem cfg env fn)) = true
  · simp [hrej]
  · simp only [Bool.not_eq_true] at hrej
    have hlook : ∀ i ∈ List.range cfg.postFiles.length,
        (settleResults cfg env sched).lookup i =
          some (fetchItem cfg env (cfg.postFiles.getD i "")) := by
      intro i hi
      rw [settleResults, lookup_map_self, if_pos (hperm.mem_iff.mpr hi)]
    have hmap : (List.range cfg.postFiles.length).map (fun i =>
          match (settleResults cfg env sched).lookup i with
          | some r => settledValue r
          | none => none)
        = cfg.postFiles.map (fun fn => settledValue (fetchItem cfg env fn)) := by
      calc (List.range cfg.postFiles.length).map (fun i =>
              match (settleResults cfg env sched).lookup i with
              | some r => settledValue r
              | none => none)
          = (List.range cfg.postFiles.length).map (fun i =>
              settledValue (fetchItem cfg env (cfg.postFiles.getD i ""))) := by
            apply List.map_congr_left
            intro i hi
            rw [hlook i hi]
        _ = cfg.postFiles.map (fun fn => settledValue (fetchItem cfg env fn)) :=
            range_map_getD cfg.postFiles "" (fun fn => settledValue (fetchItem cfg env fn))
    simp [hrej, hmap]

theorem buildPostMap_eq_inputOrder (cfg : SiteConfig) (env : String → FetchOutcome)
    (sched : List Nat) (hperm : sched.Perm (List.range cfg.postFiles.length)) :
    buildPostMap cfg env sched = postMapInputOrder cfg env := by
  rw [buildPostMap, promiseAll_eq cfg env sched hperm, postMapInputOrder]
  by_cases hlen : cfg.postFiles.length = 0
  · have hnil : cfg.postFiles = [] := List.length_eq_zero.mp hlen
    simp [hlen, hnil, successArticles, groupArticles]
  · simp only [hlen, if_false]
    by_cases hrej : cfg.postFiles.any (fun fn => isRejected (fetchItem cfg env fn)) = true
    · simp [hrej]
    · simp only [Bool.not_eq_true] at hrej
      simp only [hrej, Bool.false_eq_true, if_false]
      rw [List.filterMap_map]
      simp [successArticles, Function.comp_def]

/-! Helper lemmas about the grouping loop. -/

theorem categoryKeys_append (as : List Article) (a : Article) :
    categoryKeys (as ++ [a]) =
      if (categoryKeys as).any (fun k => k == a.category) then categoryKeys as
      else categoryKeys as ++ [a.category] := by
  rw [categoryKeys, List.foldl_append]
  rfl

theorem groupArticles_append (as : List Article) (a : Article) :
    groupArticles (as ++ [a]) = insertArticle (groupArticles as) a := by
  rw [groupArticles, List.foldl_append]
  rfl

theorem mem_categoryKeys (as : List Article) (k : String) :
    k ∈ categoryKeys as ↔ ∃ a ∈ as, a.category = k := by
  induction as using List.reverseRecOn with
  | nil => simp [categoryKeys]
  | append_singleton bs a ih =>
      rw [categoryKeys_append]
      by_cases h : (categoryKeys bs).any (fun x => x == a.category) = true
      · have hmem : a.category ∈ categoryKeys bs := by
          rcases List.any_eq_true.mp h with ⟨x, hx, hbeq⟩
          rwa [show x = a.category from by simpa using hbeq] at hx
        simp only [h, if_true]
        constructor
        · intro hk
          rcases ih.mp hk with ⟨b, hb, hbc⟩
          exact ⟨b, List.mem_append_left _ hb, hbc⟩
        · rintro ⟨b, hb, hbc⟩
          rcases List.mem_append.mp hb with hb' | hb'
          · exact ih.mpr ⟨b, hb', hbc⟩
          · have hba : b = a := List.mem_singleton.mp hb'
            subst hba
            rw [← hbc]
            exact hmem
      · simp only [Bool.not_eq_true] at h
        simp only [h, Bool.false_eq_true, if_false]
        rw [List.mem_append, List.mem_singleton]
        constructor
        · rintro (hk | hk)
          · rcases ih.mp hk with ⟨b, hb, hbc⟩
            exact ⟨b, List.mem_append_left _ hb, hbc⟩
          · exact ⟨a, List.mem_append.mpr (Or.inr (List.mem_singleton.mpr rfl)), hk.symm⟩
        · rintro ⟨b, hb, hbc⟩
          rcases List.mem_append.mp hb with hb' | hb'
          · exact Or.inl (ih.mpr ⟨b, hb', hbc⟩)
          · have hba : b = a := List.mem_singleton.mp hb'
            subst hba
            exact Or.inr hbc.symm

theorem nodup_categoryKeys (as : List Article) : (categoryKeys as).Nodup := by
  induction as using List.reverseRecOn with
  | nil => simp [categoryKeys]
  | append_singleton bs a ih =>
      rw [categoryKeys_append]
      by_cases h : (categoryKeys bs).any (fun x => x == a.category) = true
      · simpa [h] using ih
      · simp only [Bool.not_eq_true] at h
        simp only [h, Bool.false_eq_true, if_false]
        refine List.Nodup.append ih (List.nodup_singleton _) ?_
        intro x hx hx'
        have hxa : x = a.category := List.mem_singleton.mp hx'
        rw [hxa] at hx
        have hfalse := List.any_eq_false.mp h _ hx
        simp at hfalse

theorem groupArticles_spec (as : List Article) :
    groupArticles as =
      (categoryKeys as).map (fun k => (k, as.filter (fun x => x.category == k))) := by
  induction as using List.reverseRecOn with
  | nil => rfl
  | append_singleton bs a ih =>
      rw [groupArticles_append, categoryKeys_append, ih, insertArticle]
      rw [any_map_general]
      by_cases h : (categoryKeys bs).any (fun k => k == a.category) = true
      · simp only [h, if_true]
        rw [List.map_map]
        apply List.map_congr_left
        intro k _
        simp only [Function.comp_def]
        by_cases hk : (k == a.category) = true
        · have hka : k = a.category := by simpa using hk
          have hak : (a.category == k) = true := by simp [hka]
          simp [hk, List.filter_append, List.filter_cons, hak]
        · have hkf : (k == a.category) = false := Bool.not_eq_true _ |>.mp hk
          have hne : k ≠ a.category := beq_eq_false_iff_ne.mp hkf
          have hak : (a.category == k) = false := beq_eq_false_iff_ne.mpr (Ne.symm hne)
          simp [hkf, List.filter_append, List.filter_cons, hak]
      · simp only [Bool.not_eq_true] at h
        simp only [h, Bool.false_eq_true, if_false]
        rw [List.map_append]
        have hfb : bs.filter (fun x => x.category == a.category) = [] := by
          rw [List.filter_eq_nil_iff]
          intro b hb hpb
          have hbc : b.category = a.category := by simpa using hpb
          have hmem : a.category ∈ categoryKeys bs := (mem_categoryKeys bs _).mpr ⟨b, hb, hbc⟩
          have := List.any_eq_false.mp h _ hmem
          simp at this
        congr 1
        · apply List.map_congr_left
          intro k hk
          have hne : a.category ≠ k := by
            intro he
            have := List.any_eq_false.mp h k hk
            simp [← he] at this
          have hak : (a.category == k) = false := beq_eq_false_iff_ne.mpr hne
          simp [List.filter_append, List.filter_cons, hak]
        · simp [List.filter_append, List.filter_cons, hfb]

/-! Helper lemmas about the rendered markup. -/

theorem ddAux (pd : String) (n : Nat) :
    ∀ (l : List Article) (k : Nat), k + l.length = n → l ≠ [] →
      ((List.enumFrom k l).map (fun p =>
        if p.1 < n - 1 then [mkLink pd p.2, Node.text "; "] else [mkLink pd p.2])).flatten
      = List.intersperse (Node.text "; ") (l.map (mkLink pd))
  | [], _ => fun _ hne => absurd rfl hne
  | [a], k => fun hk _ => by
      rw [List.enumFrom_cons]
      have hkn : ¬ (k < n - 1) := by
        simp only [List.length_cons, List.length_nil] at hk
        omega
      simp [hkn]
  | a :: b :: t, k => fun hk _ => by
      have hkn : k < n - 1 := by
        simp only [List.length_cons] at hk
        omega
      rw [List.enumFrom_cons, List.map_cons, List.flatten_cons, if_pos hkn]
      rw [ddAux pd n (b :: t) (k + 1)
        (by simp only [List.length_cons] at hk ⊢; omega) (by simp)]
      rfl

theorem ddChildren_eq_intersperse (pd : String) (arts : List Article) :
    ddChildren pd arts = List.intersperse (Node.text "; ") (arts.map (mkLink pd)) := by
  cases arts with
  | nil => rfl
  | cons a t =>
      rw [ddChildren, show (a :: t).enum = List.enumFrom 0 (a :: t) from rfl]
      exact ddAux pd (a :: t).length (a :: t) 0 (by simp) (by simp)

theorem countP_intersperse_sep {α : Type} (x : α) (p : α → Bool) (hx : p x = true) :
    ∀ (l : List α), (∀ y ∈ l, p y = false) → (List.intersperse x l).countP p = l.length - 1
  | [] => fun _ => rfl
  | [a] => fun h => by
      have ha := h a (List.mem_singleton.mpr rfl)
      simp [List.countP_cons, ha]
  | a :: b :: t => fun h => by
      have ha := h a (by simp)
      have hrest : ∀ y ∈ b :: t, p y = false := fun y hy => h y (by simp [hy])
      have ih := countP_intersperse_sep x p hx (b :: t) hrest
      rw [show List.intersperse x (a :: b :: t) = a :: x :: List.intersperse x (b :: t) from rfl]
      simp only [List.countP_cons, ih, ha, hx, List.length_cons]
      simp

theorem countP_intersperse_items {α : Type} (x : α) (p : α → Bool) (hx : p x = false) :
    ∀ (l : List α), (∀ y ∈ l, p y = true) → (List.intersperse x l).countP p = l.length
  | [] => fun _ => rfl
  | [a] => fun h => by
      have ha := h a (List.mem_singleton.mpr rfl)
      simp [List.countP_cons, ha]
  | a :: b :: t => fun h => by
      have ha := h a (by simp)
      have hrest : ∀ y ∈ b :: t, p y = true := fun y hy => h y (by simp [hy])
      have ih := countP_intersperse_items x p hx (b :: t) hrest
      rw [show List.intersperse x (a :: b :: t) = a :: x :: List.intersperse x (b :: t) from rfl]
      simp only [List.countP_cons, ih, ha, hx, List.length_cons]
      simp

theorem getLast?_intersperse {α : Type} (x : α) :
    ∀ (l : List α), (List.intersperse x l).getLast? = l.getLast?
  | [] => rfl
  | [_] => rfl
  | a :: b :: t => by
      have ih := getLast?_intersperse x (b :: t)
      have hne : List.intersperse x (b :: t) ≠ [] := by
        cases t <;> simp [List.intersperse]
      rw [show List.intersperse x (a :: b :: t) = a :: x :: List.intersperse x (b :: t) from rfl,
        List.getLast?_cons_cons]
      rcases List.exists_cons_of_ne_nil hne with ⟨c, l', hcl⟩
      rw [hcl, List.getLast?_cons_cons, ← hcl, ih]
      exact (List.getLast?_cons_cons).symm

theorem filterMap_dtLabel_flatMap (pd : String) (f : String → List Article) :
    ∀ (ks : List String),
      (ks.flatMap (fun c => [mkDt c, mkDd pd (f c)])).filterMap dtLabel = ks
  | [] => rfl
  | c :: t => by
      rw [List.flatMap_cons, List.filterMap_append]
      have h1 : List.filterMap dtLabel [mkDt c, mkDd pd (f c)] = [c] := rfl
      rw [h1, filterMap_dtLabel_flatMap pd f t]
      rfl

/-! The default string ordering is total and transitive, so the sorted-output
and permutation lemmas of insertion sort apply to `sortStrings`. -/

theorem lexLe_total : ∀ (a b : List Char), lexLe a b = true ∨ lexLe b a = true
  | [], _ => Or.inl rfl
  | _ :: _, [] => Or.inr rfl
  | a :: as, b :: bs => by
      rcases lt_trichotomy a b with h | h | h
      · exact Or.inl (by simp [lexLe, h])
      · subst h
        rcases lexLe_total as bs with h' | h'
        · exact Or.inl (by simp [lexLe, lt_self_iff_false, h'])
        · exact Or.inr (by simp [lexLe, lt_self_iff_false, h'])
      · exact Or.inr (by simp [lexLe, h])

theorem lexLe_trans : ∀ (as bs cs : List Char),
    lexLe as bs = true → lexLe bs cs = true → lexLe as cs = true
  | [], _, _ => fun _ _ => rfl
  | _ :: _, [], _ => fun h _ => by simp [lexLe] at h
  | _ :: _, _ :: _, [] => fun _ h => by simp [lexLe] at h
  | a :: as, b :: bs, c :: cs => fun h1 h2 => by
      rcases lt_trichotomy a b with hab | hab | hab
      · rcases lt_trichotomy b c with hbc | hbc | hbc
        · exact (by simp [lexLe, lt_trans hab hbc])
        · subst hbc
          simp [lexLe, hab]
        · exfalso
          have hf : lexLe (b :: bs) (c :: cs) = false := by
            simp [lexLe, lt_asymm hbc, hbc]
          rw [hf] at h2
          exact Bool.false_ne_true h2
      · subst hab
        have h1' : lexLe as bs = true := by simpa [lexLe, lt_self_iff_false] using h1
        rcases lt_trichotomy a c with hac | hac | hac
        · simp [lexLe, hac]
        · subst hac
          have h2' : lexLe bs cs = true := by simpa [lexLe, lt_self_iff_false] using h2
          have := lexLe_trans as bs cs h1' h2'
          simpa [lexLe, lt_self_iff_false] using this
        · exfalso
          have hf : lexLe (a :: bs) (c :: cs) = false := by
            simp [lexLe, lt_asymm hac, hac]
          rw [hf] at h2
          exact Bool.false_ne_true h2
      · exfalso
        have hf : lexLe (a :: as) (b :: bs) = false := by
          simp [lexLe, lt_asymm hab, hab]
        rw [hf] at h1
        exact Bool.false_ne_true h1

instance : IsTotal String jsStrLe :=
  ⟨fun a b => lexLe_total a.data b.data⟩

instance : IsTrans String jsStrLe :=
  ⟨fun a b c => lexLe_trans a.data b.data c.data⟩

/-! Helper lemmas about strings and the paragraph scan. -/

theorem string_length_eq_zero_iff {s : String} : s.length = 0 ↔ s = "" := by
  constructor
  · intro h
    cases s with
    | mk data =>
        cases data with
        | nil => rfl
        | cons c cs => simp [String.length] at h
  · intro h
    subst h
    rfl

theorem firstNonemptyParagraph_eq_find (ps : List String) :
    firstNonemptyParagraph ps = (ps.map jsTrim).find? (fun t => !(t == "")) := by
  induction ps with
  | nil => rfl
  | cons p t ih =>
      rw [List.map_cons]
      by_cases h : (jsTrim p).length > 0
      · have hne : jsTrim p ≠ "" := by
          intro he
          rw [he] at h
          simp at h
        have hb : (!(jsTrim p == "")) = true := by simp [hne]
        rw [@List.find?_cons_of_pos _ (fun s => !(s == "")) (jsTrim p) (List.map jsTrim t) hb,
          firstNonemptyParagraph]
        simp [h]
      · have hzero : (jsTrim p).length = 0 := by omega
        have he : jsTrim p = "" := string_length_eq_zero_iff.mp hzero
        have hb : ¬ ((!(jsTrim p == "")) = true) := by simp [he]
        rw [@List.find?_cons_of_neg _ (fun s => !(s == "")) (jsTrim p) (List.map jsTrim t) hb,
          firstNonemptyParagraph]
        simp [he, ih]

theorem firstNonemptyParagraph_eq_none {ps : List String}
    (h : ∀ p ∈ ps, jsTrim p = "") : firstNonemptyParagraph ps = none := by
  induction ps with
  | nil => rfl
  | cons p t ih =>
      have hp := h p (by simp)
      rw [firstNonemptyParagraph]
      simp only [hp]
      simpa using ih (fun q hq => h q (by simp [hq]))

/-! Concrete data shared by the witnesses and counterexamples below. -/

def docHello : PostDoc := ⟨some "x", ["Hello"]⟩

def docWorld : PostDoc := ⟨some "x", ["World"]⟩

def twoFileCfg : SiteConfig :=
  ⟨"posts/", ["a.html", "b.html"], "t", "sub", "desc", "https://example.org", "2025"⟩

def okEnv : String → FetchOutcome := fun url =>
  if url = "posts/a.html" then .resolved 200 docHello
  else if url = "posts/b.html" then .resolved 200 docWorld
  else .rejected

def rejectFirstEnv : String → FetchOutcome := fun url =>
  if url = "posts/b.html" then .resolved 200 docWorld else .rejected

def notFoundFirstEnv : String → FetchOutcome := fun url =>
  if url = "posts/a.html" then .resolved 404 docHello
  else if url = "posts/b.html" then .resolved 200 docWorld
  else .rejected

def artHello : Article := ⟨"a.html", "x", "a", "Hello"⟩

def artWorld : Article := ⟨"b.html", "x", "b", "World"⟩

def artLangUpper : Article := ⟨"l1.html", "Lang", "l1", "first"⟩

def artLangLower : Article := ⟨"l2.html", "lang", "l2", "second"⟩

/-- C3: for every list of non-null article records, the grouping loop places
each record in exactly one bucket, keyed by exact case-sensitive string
equality of its own `category` field and with no normalization: the key list
is duplicate-free, every record's category is a key, the bucket of a key
holds exactly the records whose category equals that key (in arrival order),
and records with categories `"Lang"` and `"lang"` land in different
buckets. -/
theorem groupArticles_exact_buckets : ∀ (as : List Article),
    ((groupArticles as).map Prod.fst).Nodup
    ∧ groupArticles as =
        (categoryKeys as).map (fun k => (k, as.filter (fun x => x.category == k)))
    ∧ (∀ a ∈ as, a.category ∈ (groupArticles as).map Prod.fst)
    ∧ (∀ k vs, (k, vs) ∈ groupArticles as → vs = as.filter (fun x => x.category == k))
    ∧ groupArticles [artLangUpper, artLangLower] =
        [("Lang", [artLangUpper]), ("lang", [artLangLower])] := by
  intro as
  have hspec := groupArticles_spec as
  have hkeys : (groupArticles as).map Prod.fst = categoryKeys as := by
    rw [hspec, List.map_map]
    simp [Function.comp_def]
  refine ⟨?_, hspec, ?_, ?_, ?_⟩
  · rw [hkeys]
    exact nodup_categoryKeys as
  · intro a ha
    rw [hkeys]
    exact (mem_categoryKeys as _).mpr ⟨a, ha, rfl⟩
  · intro k vs hmem
    rw [hspec] at hmem
    rcases List.mem_map.mp hmem with ⟨k', _, heq⟩
    cases heq
    rfl
  · decide

/-- Witness for C3: instantiated at the two-record `"Lang"`/`"lang"` list. -/
theorem groupArticles_exact_buckets_witness :
    artLangUpper.category ∈ (groupArticles [artLangUpper, artLangLower]).map Prod.fst
    ∧ [artLangUpper] = [artLangUpper, artLangLower].filter (fun x => x.category == "Lang") :=
  ⟨(groupArticles_exact_buckets [artLangUpper, artLangLower]).2.2.1 artLangUpper (by simp),
   (groupArticles_exact_buckets [artLangUpper, artLangLower]).2.2.2.1 "Lang" [artLangUpper]
     (by decide)⟩

/-- C4: for every successfully parsed document, the record's `content` is
the trimmed text of the first paragraph in document order whose trimmed text
is non-empty, and when no paragraph qualifies it is the filename with its
trailing `.html` extension removed, i.e. the slug. -/
theorem parseArticle_content_spec : ∀ (fn : String) (doc : PostDoc),
    (parseArticle fn doc).content =
      (((doc.paragraphs.map jsTrim).find? (fun t => !(t == ""))).getD (stripHtmlExt fn))
    ∧ ((∀ p ∈ doc.paragraphs, jsTrim p = "") →
        (parseArticle fn doc).content = (parseArticle fn doc).slug) := by
  intro fn doc
  constructor
  · rw [← firstNonemptyParagraph_eq_find]
    cases h : firstNonemptyParagraph doc.paragraphs with
    | none => simp [parseArticle, h]
    | some t => simp [parseArticle, h]
  · intro hall
    have hnone := firstNonemptyParagraph_eq_none hall
    simp [parseArticle, hnone]

/-- Witness for C4: a document whose paragraphs are all whitespace falls
back to the slug. -/
theorem parseArticle_content_spec_witness :
    (parseArticle "note.html" ⟨none, ["  ", ""]⟩).content =
      (parseArticle "note.html" ⟨none, ["  ", ""]⟩).slug :=
  (parseArticle_content_spec "note.html" ⟨none, ["  ", ""]⟩).2 (by decide)

/-- C5: for every successfully parsed document, a missing category tag or a
tag whose value trims to the empty string (including whitespace-only values)
yields the literal category `"others"`, and any other tag value yields its
trimmed value. -/
theorem parseArticle_category_spec : ∀ (fn : String) (doc : PostDoc),
    (doc.metaCategory = none → (parseArticle fn doc).category = "others")
    ∧ (∀ c, doc.metaCategory = some c → jsTrim c = "" →
        (parseArticle fn doc).category = "others")
    ∧ (∀ c, doc.metaCategory = some c → jsTrim c ≠ "" →
        (parseArticle fn doc).category = jsTrim c) := by
  intro fn doc
  refine ⟨?_, ?_, ?_⟩
  · intro h
    simp [parseArticle, extractCategory, h]
  · intro c h he
    simp [parseArticle, extractCategory, h, he]
  · intro c h hne
    have hpos : 0 < (jsTrim c).length := by
      rcases Nat.eq_zero_or_pos (jsTrim c).length with hz | hp
      · exact absurd (string_length_eq_zero_iff.mp hz) hne
      · exact hp
    simp [parseArticle, extractCategory, h, hpos]

/-- Witness for C5: a whitespace-only category tag defaults to `"others"`. -/
theorem parseArticle_category_spec_witness :
    (parseArticle "a.html" ⟨some "   ", ["x"]⟩).category = "others" :=
  (parseArticle_category_spec "a.html" ⟨some "   ", ["x"]⟩).2.1 "   " rfl (by decide)

/-- Counterexample to C1 as stated: a network error (rejected fetch) for
`a.html` rejects the whole `Promise.all`, so `buildPostMap` raises a
pipeline-level error and the successfully fetched `b.html` never reaches the
category map. -/
theorem network_error_aborts_batch :
    buildPostMap twoFileCfg rejectFirstEnv [0, 1] = Except.error ()
    ∧ rejectFirstEnv "posts/b.html" = FetchOutcome.resolved 200 docWorld
    ∧ buildPostMap twoFileCfg rejectFirstEnv [0, 1] ≠
        Except.ok (groupArticles (successArticles twoFileCfg rejectFirstEnv)) := by
  refine ⟨rfl, rfl, ?_⟩
  intro h
  rw [show buildPostMap twoFileCfg rejectFirstEnv [0, 1] = Except.error () from rfl] at h
  exact Except.noConfusion h

/-- C1 amended: a per-item retrieval failure with a non-success HTTP status
is handled per item — a warning is logged, the item yields `null` and is
excluded from aggregation, and the batch is not aborted, so the other files'
records still reach the category map with no pipeline-level error.  A
network error (rejected fetch promise), by contrast, rejects the join and is
caught only by the pipeline-level handler (previous counterexample). -/
theorem status_failure_handled_per_item :
    ∀ (cfg : SiteConfig) (env : String → FetchOutcome) (sched : List Nat),
      sched.Perm (List.range cfg.postFiles.length) →
      (∀ fn ∈ cfg.postFiles, env (cfg.postsDir ++ fn) ≠ FetchOutcome.rejected) →
      buildPostMap cfg env sched = Except.ok (groupArticles (successArticles cfg env))
      ∧ (buildAutoIndex cfg env sched true).consoleErrors = []
      ∧ (∀ fn ∈ cfg.postFiles, ∀ status body,
          env (cfg.postsDir ++ fn) = FetchOutcome.resolved status body →
          responseOk status = false →
          fetchItem cfg env fn = Except.ok none
          ∧ ("Failed to fetch " ++ fn ++ ": " ++ toString status) ∈ fetchWarnings cfg env) := by
  intro cfg env sched hperm hnorej
  have hnorejb : cfg.postFiles.any (fun fn => isRejected (fetchItem cfg env fn)) = false := by
    rw [List.any_eq_false]
    intro fn hfn hcontra
    exact hnorej fn hfn ((isRejected_fetchItem_iff cfg env fn).mp hcontra)
  have hmain : buildPostMap cfg env sched =
      Except.ok (groupArticles (successArticles cfg env)) := by
    rw [buildPostMap_eq_inputOrder cfg env sched hperm, postMapInputOrder, hnorejb]
    simp
  refine ⟨hmain, ?_, ?_⟩
  · rw [buildAutoIndex]
    simp [hmain]
  · intro fn hfn status body henv hnok
    constructor
    · simp [fetchItem, henv, hnok]
    · rw [fetchWarnings]
      apply List.mem_filterMap.mpr
      refine ⟨fn, hfn, ?_⟩
      rw [henv]
      simp [hnok]

/-- Witness for C1 amended: `a.html` answers 404, `b.html` answers 200. -/
theorem status_failure_handled_per_item_witness :
    buildPostMap twoFileCfg notFoundFirstEnv [1, 0] =
      Except.ok (groupArticles (successArticles twoFileCfg notFoundFirstEnv))
    ∧ ("Failed to fetch " ++ "a.html" ++ ": " ++ toString 404) ∈
        fetchWarnings twoFileCfg notFoundFirstEnv := by
  have h := status_failure_handled_per_item twoFileCfg notFoundFirstEnv [1, 0]
    (by decide) (by decide)
  exact ⟨h.1, (h.2.2 "a.html" (by decide) 404 docHello rfl rfl).2⟩

/-- Counterexample to C2 as stated: with settlement schedule `[1, 0]` (the
second file settles first) the bucket of `"x"` holds the records in input
order, not in settlement order, so the code's bucket order differs from the
spec's fetch-resolution order. -/
theorem buckets_not_settlement_order :
    buildPostMap twoFileCfg okEnv [1, 0] = Except.ok [("x", [artHello, artWorld])]
    ∧ settlementPostMap twoFileCfg okEnv [1, 0] = Except.ok [("x", [artWorld, artHello])]
    ∧ buildPostMap twoFileCfg okEnv [1, 0] ≠ settlementPostMap twoFileCfg okEnv [1, 0] := by
  refine ⟨rfl, rfl, ?_⟩
  intro h
  rw [show buildPostMap twoFileCfg okEnv [1, 0] =
        Except.ok [("x", [artHello, artWorld])] from rfl,
    show settlementPostMap twoFileCfg okEnv [1, 0] =
        Except.ok [("x", [artWorld, artHello])] from rfl, Except.ok.injEq] at h
  exact absurd h (by decide)

/-- C2 amended: within each bucket the records appear in the input order of
`postFiles` (restricted to the records of that category), independently of
the settlement schedule, because `Promise.all` assembles its result array by
input position. -/
theorem buckets_follow_input_order :
    ∀ (cfg : SiteConfig) (env : String → FetchOutcome) (sched : List Nat),
      sched.Perm (List.range cfg.postFiles.length) →
      buildPostMap cfg env sched = buildPostMap cfg env (List.range cfg.postFiles.length)
      ∧ (∀ m k vs, buildPostMap cfg env sched = Except.ok m → (k, vs) ∈ m →
          vs = (successArticles cfg env).filter (fun x => x.category == k)) := by
  intro cfg env sched hperm
  constructor
  · rw [buildPostMap_eq_inputOrder cfg env sched hperm,
      buildPostMap_eq_inputOrder cfg env (List.range cfg.postFiles.length) (List.Perm.refl _)]
  · intro m k vs hok hmem
    rw [buildPostMap_eq_inputOrder cfg env sched hperm, postMapInputOrder] at hok
    by_cases hrej : cfg.postFiles.any (fun fn => isRejected (fetchItem cfg env fn)) = true
    · rw [hrej] at hok
      simp at hok
    · simp only [Bool.not_eq_true] at hrej
      rw [hrej] at hok
      simp only [Bool.false_eq_true, if_false, Except.ok.injEq] at hok
      subst hok
      rw [groupArticles_spec (successArticles cfg env)] at hmem
      rcases List.mem_map.mp hmem with ⟨k', _, heq⟩
      cases heq
      rfl

/-- Witness for C2 amended: concrete two-file run under the swapped
schedule. -/
theorem buckets_follow_input_order_witness :
    buildPostMap twoFileCfg okEnv [1, 0] =
      buildPostMap twoFileCfg okEnv (List.range twoFileCfg.postFiles.length)
    ∧ [artHello, artWorld] =
        (successArticles twoFileCfg okEnv).filter (fun x => x.category == "x") := by
  have h := buckets_follow_input_order twoFileCfg okEnv [1, 0] (by decide)
  exact ⟨h.1, h.2 [("x", [artHello, artWorld])] "x" [artHello, artWorld] rfl (by decide)⟩

/-- C9: a successful `buildPostMap` run never creates an empty bucket, so
every rendered term node's description holds at least one article link. -/
theorem buildPostMap_no_empty_buckets :
    ∀ (cfg : SiteConfig) (env : String → FetchOutcome) (sched : List Nat)
      (m : CategoryMap) (k : String) (vs : List Article),
      buildPostMap cfg env sched = Except.ok m → (k, vs) ∈ m →
      vs ≠ [] ∧ ddChildren cfg.postsDir vs ≠ [] := by
  intro cfg env sched m k vs hok hmem
  have hL : ∃ L : List Article, m = groupArticles L := by
    rw [buildPostMap] at hok
    by_cases hlen : cfg.postFiles.length = 0
    · rw [if_pos hlen] at hok
      exact ⟨[], by rw [← Except.ok.inj hok]; rfl⟩
    · rw [if_neg hlen] at hok
      cases hp : promiseAll cfg env sched with
      | error e =>
          rw [hp] at hok
          exact absurd hok (by simp)
      | ok arts =>
          rw [hp] at hok
          exact ⟨arts.filterMap id, (Except.ok.inj hok).symm⟩
  rcases hL with ⟨L, hm⟩
  subst hm
  rw [groupArticles_spec L] at hmem
  rcases List.mem_map.mp hmem with ⟨k', hk', heq⟩
  cases heq
  rcases (mem_categoryKeys L k).mp hk' with ⟨b, hb, hbc⟩
  have hbf : b ∈ L.filter (fun x => x.category == k) :=
    List.mem_filter.mpr ⟨hb, by simp [hbc]⟩
  have hne : L.filter (fun x => x.category == k) ≠ [] := List.ne_nil_of_mem hbf
  refine ⟨hne, ?_⟩
  rw [ddChildren_eq_intersperse]
  rcases List.exists_cons_of_ne_nil hne with ⟨c, l', hcl⟩
  rw [hcl]
  cases l' <;> simp [List.intersperse]

/-- Witness for C9: concrete successful two-file run. -/
theorem buildPostMap_no_empty_buckets_witness :
    [artHello, artWorld] ≠ ([] : List Article)
    ∧ ddChildren twoFileCfg.postsDir [artHello, artWorld] ≠ [] :=
  buildPostMap_no_empty_buckets twoFileCfg okEnv [0, 1] [("x", [artHello, artWorld])] "x"
    [artHello, artWorld] rfl (by decide)

/-- C6: the rendered category sections appear in ascending default string
order of the category keys (capital letters sort before lowercase ASCII
letters): the rendered label order is the sorted key list, hence sorted and
a permutation of the keys, and the concrete keys `zebra`, `Alpha`, `beta`
render as `Alpha`, `beta`, `zebra`. -/
theorem buildCategoryList_sorted_categories :
    ∀ (pd : String) (pm : CategoryMap),
      categoryOrder pd pm = sortStrings (pm.map Prod.fst)
      ∧ List.Sorted jsStrLe (categoryOrder pd pm)
      ∧ (categoryOrder pd pm).Perm (pm.map Prod.fst)
      ∧ categoryOrder "" [("zebra", []), ("Alpha", []), ("beta", [])] =
          ["Alpha", "beta", "zebra"] := by
  intro pd pm
  have hco : categoryOrder pd pm = sortStrings (pm.map Prod.fst) := by
    rw [categoryOrder, buildCategoryList]
    simp only [nodeChildren]
    exact filterMap_dtLabel_flatMap pd (fun c => lookupBucket pm c)
      (sortStrings (pm.map Prod.fst))
  refine ⟨hco, ?_, ?_, ?_⟩
  · rw [hco]
    exact List.sorted_insertionSort jsStrLe _
  · rw [hco]
    exact List.perm_insertionSort jsStrLe _
  · decide

/-- C7: for every non-empty bucket the description node's children are the
article links in bucket order joined by the literal `'; '` separator:
exactly n−1 separator text nodes, n links, and no separator after the last
link (the joined shape is exactly an intersperse of the links). -/
theorem ddChildren_separator_join :
    ∀ (pd : String) (arts : List Article), arts ≠ [] →
      ddChildren pd arts = List.intersperse (Node.text "; ") (arts.map (mkLink pd))
      ∧ (ddChildren pd arts).countP isSepNode = arts.length - 1
      ∧ (ddChildren pd arts).countP isLinkNode = arts.length
      ∧ (ddChildren pd arts).getLast? = (arts.map (mkLink pd)).getLast? := by
  intro pd arts _
  have heq := ddChildren_eq_intersperse pd arts
  refine ⟨heq, ?_, ?_, ?_⟩
  · have hall : ∀ y ∈ arts.map (mkLink pd), isSepNode y = false := by
      intro y hy
      rcases List.mem_map.mp hy with ⟨a, _, ha⟩
      rw [← ha]
      rfl
    rw [heq, countP_intersperse_sep (Node.text "; ") isSepNode rfl (arts.map (mkLink pd)) hall,
      List.length_map]
  · have hall : ∀ y ∈ arts.map (mkLink pd), isLinkNode y = true := by
      intro y hy
      rcases List.mem_map.mp hy with ⟨a, _, ha⟩
      rw [← ha]
      rfl
    rw [heq, countP_intersperse_items (Node.text "; ") isLinkNode rfl (arts.map (mkLink pd)) hall,
      List.length_map]
  · rw [heq]
    exact getLast?_intersperse _ _

/-- Witness for C7: a two-article bucket has one separator. -/
theorem ddChildren_separator_join_witness :
    ddChildren "posts/" [artHello, artWorld] =
      List.intersperse (Node.text "; ") ([artHello, artWorld].map (mkLink "posts/"))
    ∧ (ddChildren "posts/" [artHello, artWorld]).countP isSepNode = 1 := by
  have h := ddChildren_separator_join "posts/" [artHello, artWorld] (by decide)
  exact ⟨h.1, h.2.1⟩

/-- C8: with the main content region absent, `buildAutoIndex` reports a
console error and halts: no loading message is set, no fetch is issued, no
warning is printed, and the document is left unchanged. -/
theorem buildAutoIndex_missing_main :
    ∀ (cfg : SiteConfig) (env : String → FetchOutcome) (sched : List Nat),
      buildAutoIndex cfg env sched false =
        { mainOps := [], fetches := [],
          consoleErrors := ["Main container not found in index.html"],
          consoleWarns := [] } := by
  intro cfg env sched
  rfl

/-- C10: when no heading matches the TOC selector, `generateTOC` returns the
document unchanged: no container is created, no ids are assigned, and no
list is rendered. -/
theorem generateTOC_no_headings :
    ∀ (doc : TocDoc), doc.headings = [] → generateTOC doc = doc := by
  intro doc h
  simp [generateTOC, h]

def emptyTocDoc : TocDoc := ⟨false, [], ["intro"], none, false⟩

/-- Witness for C10: a loaded page with no `h1` elements. -/
theorem generateTOC_no_headings_witness :
    generateTOC emptyTocDoc = emptyTocDoc :=
  generateTOC_no_headings emptyTocDoc rfl
